import Mathlib

/-
Verification development for the FunSpeech serving core.

Shallow embedding of the Python sources under `app/`: the pure helpers
become Lean functions, the SQLite task table becomes a list of rows, and
the two WebSocket session loops become explicit step functions over
session-state records.  Audio samples and thresholds are modelled as
rationals; everywhere the code performs float arithmetic the operations
used (division by 32768, comparison, clipping, multiplication by 32767
followed by an int16 cast) are exact or provably rounding-stable at the
int16 grid, so the rational model is faithful.  The neural models
(FunASR realtime ASR, punctuation, ITN, CosyVoice) are out of scope of
the specification and are modelled as oracle parameters.
-/

namespace FunSpeech

/-- Embeds `app/core/security.py::validate_token`.  A `none`
`expected_token` means authentication is optional and every call
validates.  Python truthiness of the token is an emptiness test. -/
def validate_token (token : String) (expected_token : Option String) : Bool :=
  match expected_token with
  | none => true
  | some exp =>
    if token = "" then false
    else if token.length < 10 then false
    else if token ≠ exp then false
    else true

/-- Truncation toward zero: the semantics of the numpy `astype(np.int16)`
cast on an in-range value. -/
def truncToInt (q : ℚ) : Int :=
  if 0 ≤ q then Int.floor q else Int.ceil q

/-- Embeds the int16 to float decode used by
`websocket_asr.py::_convert_audio_bytes_to_array` and
`_process_audio_chunk`: divide the sample by 32768.  Exact: an int16
divided by a power of two is exactly representable in float32. -/
def decodeSample (s : Int) : ℚ := (s : ℚ) / 32768

/-- Embeds `websocket_tts.py::_convert_audio_to_pcm` on a single sample:
`np.clip(x, -1.0, 1.0)` then `* 32767` then `astype(np.int16)`.  The
float32 product never rounds across an integer of the int16 grid (the
distance of `s * 32767 / 32768` to the integers on either side always
exceeds half an ulp), so truncating the exact rational is faithful. -/
def convert_audio_to_pcm_sample (x : ℚ) : Int :=
  truncToInt (max (-1) (min 1 x) * 32767)

/-- Decode an int16 sample to float and re-encode it with the TTS PCM
converter. -/
def pcmRoundTrip (s : Int) : Int :=
  convert_audio_to_pcm_sample (decodeSample s)

/-- C10: with a configured (non-`none`) expected token, `validate_token`
returns `true` exactly when the supplied token equals the expected one and
is at least 10 characters long; consequently a configured expected token
shorter than 10 characters makes every validation attempt fail, including
the exactly matching one. -/
theorem C10_validate_token (token exp : String) :
    (validate_token token (some exp) = true ↔ token = exp ∧ 10 ≤ token.length) ∧
    (exp.length < 10 → ∀ t : String, validate_token t (some exp) = false) := by
  have hmain : ∀ t : String,
      validate_token t (some exp) = true ↔ t = exp ∧ 10 ≤ t.length := by
    intro t
    simp only [validate_token]
    split_ifs with h1 h2 h3
    · simp only [Bool.false_eq_true, false_iff]
      rintro ⟨rfl, hlen⟩
      rw [h1] at hlen
      simp at hlen
    · simp only [Bool.false_eq_true, false_iff]
      rintro ⟨rfl, hlen⟩
      omega
    · simp only [Bool.false_eq_true, false_iff]
      rintro ⟨rfl, _⟩
      exact h3 rfl
    · exact ⟨fun _ => ⟨not_not.mp h3, by omega⟩, fun _ => rfl⟩
  refine ⟨hmain token, fun hexp t => ?_⟩
  cases hv : validate_token t (some exp) with
  | false => rfl
  | true =>
    rcases (hmain t).mp hv with ⟨rfl, hlen⟩
    omega

/-- Witness for `C10_validate_token` at a concrete short expected token. -/
theorem C10_validate_token_witness :
    validate_token "abcdefgh" (some "short") = false :=
  (C10_validate_token "abcdefgh" "short").2 (by decide) "abcdefgh"

/-- Exact value of the decode and re-encode round trip on the int16
range: every sample moves one step toward zero. -/
theorem pcmRoundTrip_eq (s : Int) (hlo : -32768 ≤ s) (hhi : s ≤ 32767) :
    pcmRoundTrip s = s - Int.sign s := by
  have h32 : (0 : ℚ) < 32768 := by norm_num
  have hx1 : (s : ℚ) / 32768 ≤ 1 := by
    rw [div_le_one h32]
    have : (s : ℚ) ≤ 32767 := by exact_mod_cast hhi
    linarith
  have hx2 : (-1 : ℚ) ≤ (s : ℚ) / 32768 := by
    rw [le_div_iff h32]
    have : (-32768 : ℚ) ≤ (s : ℚ) := by exact_mod_cast hlo
    linarith
  have hclip : max (-1) (min 1 ((s : ℚ) / 32768)) = (s : ℚ) / 32768 := by
    rw [min_eq_right hx1, max_eq_right hx2]
  unfold pcmRoundTrip convert_audio_to_pcm_sample decodeSample
  rw [hclip]
  rcases lt_trichotomy s 0 with hneg | hz | hpos
  · have hsq : (s : ℚ) < 0 := by exact_mod_cast hneg
    have hvneg : (s : ℚ) / 32768 * 32767 < 0 := by
      apply mul_neg_of_neg_of_pos (div_neg_of_neg_of_pos hsq h32)
      norm_num
    rw [truncToInt, if_neg (not_le.mpr hvneg)]
    have hceil : ⌈(s : ℚ) / 32768 * 32767⌉ = s + 1 := by
      rw [Int.ceil_eq_iff]
      constructor
      · push_cast
        rw [div_mul_eq_mul_div, lt_div_iff h32]
        nlinarith
      · push_cast
        rw [div_mul_eq_mul_div, div_le_iff h32]
        have : (-32768 : ℚ) ≤ (s : ℚ) := by exact_mod_cast hlo
        nlinarith
    rw [hceil, Int.sign_eq_neg_one_of_neg hneg]
    ring
  · subst hz
    simp [truncToInt]
  · have hsq : (0 : ℚ) < (s : ℚ) := by exact_mod_cast hpos
    have hvpos : 0 ≤ (s : ℚ) / 32768 * 32767 := by positivity
    rw [truncToInt, if_pos hvpos]
    have hfloor : ⌊(s : ℚ) / 32768 * 32767⌋ = s - 1 := by
      rw [Int.floor_eq_iff]
      constructor
      · push_cast
        rw [div_mul_eq_mul_div, le_div_iff h32]
        have : (s : ℚ) ≤ 32767 := by exact_mod_cast hhi
        nlinarith
      · push_cast
        rw [div_mul_eq_mul_div, div_lt_iff h32]
        nlinarith
    rw [hfloor, Int.sign_eq_one_of_pos hpos]

/-- C4 counterexample: the sample value 1 is not an int16 extreme, yet the
decode and re-encode round trip maps it to 0, because the converter
truncates `32767 / 32768` toward zero instead of rounding it. -/
theorem C4_pcm_roundtrip_counterexample :
    pcmRoundTrip 1 = 0 ∧ (0 : Int) ≠ 1 ∧
    (1 : Int) ≠ -32768 ∧ (1 : Int) ≠ 32767 := by
  refine ⟨?_, by decide, by decide, by decide⟩
  rw [pcmRoundTrip_eq 1 (by decide) (by decide)]
  decide

/-- C4 amended: the decode and re-encode round trip is never the identity
off zero: on the whole int16 range it maps `s` to `s - sign s`, pulling
every nonzero sample one step toward zero (the extreme -32768 goes to
-32767 by the same formula). -/
theorem C4_pcm_roundtrip (s : Int) (hlo : -32768 ≤ s) (hhi : s ≤ 32767) :
    pcmRoundTrip s = s - Int.sign s :=
  pcmRoundTrip_eq s hlo hhi

/-- Witness for `C4_pcm_roundtrip` at the concrete sample 5. -/
theorem C4_pcm_roundtrip_witness :
    pcmRoundTrip 5 = 4 :=
  (C4_pcm_roundtrip 5 (by decide) (by decide)).trans (by decide)

/-- One call into the multi-engine pool: a `select`, or a `release` of a
previously obtained replica index. -/
inductive PoolOp where
  | select : PoolOp
  | release : Nat → PoolOp
deriving DecidableEq

/-- Embeds `MultiGPUTTSEngine._select_engine` under the pool lock: take
the minimum of the active counts, return the first index holding that
minimum, and increment its counter.  (The round-robin fallback after
the scan in the source is dead code: a nonempty list always attains its
minimum.)  On an empty pool Python `min` would raise; pools are
nonempty by construction and the embedding leaves the state unchanged
there. -/
def selectEngine (counts : List Int) : Nat × List Int :=
  match counts.min? with
  | none => (0, counts)
  | some m =>
    let i := counts.findIdx (fun c => c = m)
    (i, counts.set i (counts.getD i 0 + 1))

/-- Embeds `MultiGPUTTSEngine._release_engine`: decrement the counter
with a floor at zero; out-of-range indices are ignored. -/
def releaseEngine (counts : List Int) (i : Nat) : List Int :=
  if i < counts.length then counts.set i (max 0 (counts.getD i 0 - 1)) else counts

/-- Run a sequence of pool operations.  Returns the final counter
array, the indices handed out by the selects in order, and a flag that
is `true` exactly when every release hit an in-range counter that was
positive — that is, when every release matched an outstanding
select. -/
def runPool : List PoolOp → List Int → List Int × List Nat × Bool
  | [], counts => (counts, [], true)
  | PoolOp.select :: ops, counts =>
    let r := selectEngine counts
    let rest := runPool ops r.2
    (rest.1, r.1 :: rest.2.1, rest.2.2)
  | PoolOp.release i :: ops, counts =>
    let ok0 := decide (i < counts.length) && decide (1 ≤ counts.getD i 0)
    let rest := runPool ops (releaseEngine counts i)
    (rest.1, rest.2.1, ok0 && rest.2.2)

/-- The indices named by the releases of an operation sequence, in order. -/
def releaseIndices (ops : List PoolOp) : List Nat :=
  ops.filterMap (fun op => match op with
    | PoolOp.release i => some i
    | PoolOp.select => none)

theorem selectEngine_length (counts : List Int) :
    (selectEngine counts).2.length = counts.length := by
  unfold selectEngine
  cases h : counts.min? with
  | none => rfl
  | some m => simp

theorem releaseEngine_length (counts : List Int) (i : Nat) :
    (releaseEngine counts i).length = counts.length := by
  unfold releaseEngine
  split <;> simp

theorem int_min?_spec {counts : List Int} {m : Int} (h : counts.min? = some m) :
    m ∈ counts ∧ ∀ b ∈ counts, m ≤ b :=
  (@List.min?_eq_some_iff Int m _ _ ⟨fun h1 h2 => le_antisymm h1 h2⟩
    (fun a => le_refl a) (fun a b => min_choice a b)
    (fun _ _ _ => le_min_iff) counts).mp h

theorem selectEngine_spec (counts : List Int) (hne : counts ≠ []) :
    ∃ m, counts.min? = some m ∧
      (selectEngine counts).1 < counts.length ∧
      counts.getD (selectEngine counts).1 0 = m ∧
      (∀ j, j < (selectEngine counts).1 → counts.getD j 0 ≠ m) ∧
      (selectEngine counts).2 =
        counts.set (selectEngine counts).1 (counts.getD (selectEngine counts).1 0 + 1) := by
  cases h : counts.min? with
  | none => exact absurd (List.min?_eq_none_iff.mp h) hne
  | some m =>
    obtain ⟨hmem, -⟩ := int_min?_spec h
    have hlt : counts.findIdx (fun c => c = m) < counts.length :=
      List.findIdx_lt_length.mpr ⟨m, hmem, by simp⟩
    refine ⟨m, rfl, ?_, ?_, ?_, ?_⟩
    · simpa [selectEngine, h] using hlt
    · have := @List.findIdx_getElem _ (fun c => c = m) counts hlt
      simp only [decide_eq_true_eq] at this
      simp [selectEngine, h, List.getD_eq_getElem?_getD, List.getElem?_eq_getElem hlt, this]
    · intro j hj
      simp only [selectEngine, h] at hj
      have hjlt : j < counts.length := lt_trans hj hlt
      have := @List.not_of_lt_findIdx _ (fun c => c = m) counts j hj
      simp only [decide_eq_false_iff_not] at this
      simp [List.getD_eq_getElem?_getD, List.getElem?_eq_getElem hjlt, this]
    · simp [selectEngine, h]

theorem selectEngine_getD (counts : List Int) (i : Nat) (hi : i < counts.length) :
    (selectEngine counts).2.getD i 0 =
      counts.getD i 0 + (if (selectEngine counts).1 = i then 1 else 0) := by
  have hne : counts ≠ [] := by
    intro h; rw [h] at hi; simp at hi
  obtain ⟨m, hm, hidx, -, -, hset⟩ := selectEngine_spec counts hne
  rw [hset]
  by_cases hij : (selectEngine counts).1 = i
  · subst hij
    simp [List.getD_eq_getElem?_getD, List.getElem?_set, hidx]
  · simp [List.getD_eq_getElem?_getD, List.getElem?_set, hij]

theorem releaseEngine_getD (counts : List Int) (i0 i : Nat)
    (hok : i0 < counts.length ∧ 1 ≤ counts.getD i0 0) :
    (releaseEngine counts i0).getD i 0 =
      counts.getD i 0 - (if i0 = i then 1 else 0) := by
  obtain ⟨hlen, hpos⟩ := hok
  have hmax : max 0 (counts.getD i0 0 - 1) = counts.getD i0 0 - 1 := by omega
  unfold releaseEngine
  rw [if_pos hlen]
  by_cases hij : i0 = i
  · subst hij
    rw [List.getD_eq_getElem?_getD, List.getElem?_set, if_pos rfl, if_pos hlen,
      Option.getD_some, hmax, if_pos rfl]
  · rw [List.getD_eq_getElem?_getD, List.getElem?_set, if_neg hij, if_neg hij,
      ← List.getD_eq_getElem?_getD]
    omega

theorem runPool_length (ops : List PoolOp) (counts : List Int) :
    (runPool ops counts).1.length = counts.length := by
  induction ops generalizing counts with
  | nil => rfl
  | cons op ops ih =>
    cases op with
    | select => simpa [runPool, selectEngine_length] using
        (ih (selectEngine counts).2).trans (selectEngine_length counts)
    | release i => simpa [runPool] using
        (ih (releaseEngine counts i)).trans (releaseEngine_length counts i)

theorem runPool_nonneg (ops : List PoolOp) (counts : List Int)
    (h : ∀ x ∈ counts, 0 ≤ x) : ∀ x ∈ (runPool ops counts).1, 0 ≤ x := by
  induction ops generalizing counts with
  | nil => exact h
  | cons op ops ih =>
    cases op with
    | select =>
      refine ih (selectEngine counts).2 (fun x hx => ?_)
      unfold selectEngine at hx
      cases hmin : counts.min? with
      | none => rw [hmin] at hx; exact h x hx
      | some m =>
        rw [hmin] at hx
        simp only at hx
        rcases List.mem_or_eq_of_mem_set hx with hmem | rfl
        · exact h _ hmem
        · set j := counts.findIdx (fun c => c = m) with hj
          by_cases hjl : j < counts.length
          · have : counts.getD j 0 ∈ counts := by
              rw [List.getD_eq_getElem?_getD, List.getElem?_eq_getElem hjl]
              exact List.getElem_mem hjl
            have := h _ this
            omega
          · have : counts.getD j 0 = 0 := by
              rw [List.getD_eq_getElem?_getD, List.getElem?_eq_none (by omega)]
              rfl
            omega
    | release i =>
      refine ih (releaseEngine counts i) (fun x hx => ?_)
      unfold releaseEngine at hx
      split at hx
      · rcases List.mem_or_eq_of_mem_set hx with hmem | rfl
        · exact h _ hmem
        · exact le_max_left 0 _
      · exact h x hx

theorem runPool_balance (ops : List PoolOp) (counts : List Int)
    (hok : (runPool ops counts).2.2 = true) :
    ∀ i, i < counts.length →
      (runPool ops counts).1.getD i 0 + ((releaseIndices ops).count i : Int) =
        counts.getD i 0 + (((runPool ops counts).2.1.count i : Nat) : Int) := by
  induction ops generalizing counts with
  | nil => intro i _; simp [runPool, releaseIndices]
  | cons op ops ih =>
    cases op with
    | select =>
      intro i hi
      have hok' : (runPool ops (selectEngine counts).2).2.2 = true := hok
      have hi' : i < (selectEngine counts).2.length := by
        rw [selectEngine_length]; exact hi
      have hrec := ih (selectEngine counts).2 hok' i hi'
      have hsel := selectEngine_getD counts i hi
      have hrels : releaseIndices (PoolOp.select :: ops) = releaseIndices ops := by
        simp [releaseIndices]
      have hrun1 : (runPool (PoolOp.select :: ops) counts).1 =
          (runPool ops (selectEngine counts).2).1 := rfl
      have hrun2 : (runPool (PoolOp.select :: ops) counts).2.1 =
          (selectEngine counts).1 :: (runPool ops (selectEngine counts).2).2.1 := rfl
      rw [hrun1, hrun2, hrels, List.count_cons]
      by_cases hji : (selectEngine counts).1 = i
      · rw [if_pos hji] at hsel
        rw [if_pos (by simp [hji])]
        push_cast
        omega
      · rw [if_neg hji] at hsel
        rw [if_neg (by simp [hji])]
        push_cast
        omega
    | release i0 =>
      intro i hi
      have hokparts : ((decide (i0 < counts.length) &&
          decide (1 ≤ counts.getD i0 0)) &&
          (runPool ops (releaseEngine counts i0)).2.2) = true := hok
      simp only [Bool.and_eq_true, decide_eq_true_eq] at hokparts
      have hok0 : i0 < counts.length ∧ 1 ≤ counts.getD i0 0 := hokparts.1
      have hok' : (runPool ops (releaseEngine counts i0)).2.2 = true := hokparts.2
      have hi' : i < (releaseEngine counts i0).length := by
        rw [releaseEngine_length]; exact hi
      have hrec := ih (releaseEngine counts i0) hok' i hi'
      have hrel := releaseEngine_getD counts i0 i hok0
      have hrels : releaseIndices (PoolOp.release i0 :: ops) =
          i0 :: releaseIndices ops := by
        simp [releaseIndices]
      have hrun1 : (runPool (PoolOp.release i0 :: ops) counts).1 =
          (runPool ops (releaseEngine counts i0)).1 := rfl
      have hrun2 : (runPool (PoolOp.release i0 :: ops) counts).2.1 =
          (runPool ops (releaseEngine counts i0)).2.1 := rfl
      rw [hrun1, hrun2, hrels, List.count_cons]
      by_cases hji : i0 = i
      · rw [if_pos hji] at hrel
        rw [if_pos (by simp [hji])]
        push_cast
        omega
      · rw [if_neg hji] at hrel
        rw [if_neg (by simp [hji])]
        push_cast
        omega

/-- C9: the pool selection returns the first index attaining the minimum
active count and increments it; release decrements with a floor at zero;
every interleaving of operations keeps all counters nonnegative; and a
run in which every release matches an outstanding select and the
multiset of released indices equals the multiset of selected indices
ends with every counter back at zero. -/
theorem C9_engine_pool :
    (∀ counts : List Int, counts ≠ [] →
      ∃ m, counts.min? = some m ∧
        (selectEngine counts).1 < counts.length ∧
        counts.getD (selectEngine counts).1 0 = m ∧
        (∀ j, j < (selectEngine counts).1 → counts.getD j 0 ≠ m) ∧
        (selectEngine counts).2 =
          counts.set (selectEngine counts).1
            (counts.getD (selectEngine counts).1 0 + 1)) ∧
    (∀ counts : List Int, ∀ i, i < counts.length →
      releaseEngine counts i = counts.set i (max 0 (counts.getD i 0 - 1))) ∧
    (∀ (n : Nat) (ops : List PoolOp),
      ∀ x ∈ (runPool ops (List.replicate n 0)).1, 0 ≤ x) ∧
    (∀ (n : Nat) (ops : List PoolOp),
      (runPool ops (List.replicate n 0)).2.2 = true →
      (runPool ops (List.replicate n 0)).2.1.Perm (releaseIndices ops) →
      ∀ x ∈ (runPool ops (List.replicate n 0)).1, x = 0) := by
  refine ⟨selectEngine_spec, ?_, ?_, ?_⟩
  · intro counts i hi
    unfold releaseEngine
    rw [if_pos hi]
  · intro n ops
    exact runPool_nonneg ops _ (fun x hx => by
      rw [List.eq_of_mem_replicate hx])
  · intro n ops hok hperm x hx
    obtain ⟨i, hi, hget⟩ := List.getElem_of_mem hx
    have hlen : (runPool ops (List.replicate n 0)).1.length = n := by
      rw [runPool_length, List.length_replicate]
    have hbal := runPool_balance ops (List.replicate n 0) hok i
      (by rw [List.length_replicate]; omega)
    rw [hperm.count_eq i] at hbal
    have hzero : (List.replicate n 0 : List Int).getD i 0 = 0 := by
      rcases lt_or_ge i n with hlt | hge
      · rw [List.getD_eq_getElem?_getD, List.getElem?_eq_getElem (by simpa using hlt)]
        simp
      · rw [List.getD_eq_getElem?_getD, List.getElem?_eq_none (by simpa using hge)]
        rfl
    have hxd : (runPool ops (List.replicate n 0)).1.getD i 0 = x := by
      rw [List.getD_eq_getElem?_getD, List.getElem?_eq_getElem hi, hget]
      rfl
    omega

/-- Witness for `C9_engine_pool`: a two-replica pool with a balanced
trace of two selects and two matching releases ends at zero. -/
theorem C9_engine_pool_witness :
    ∀ x ∈ (runPool [PoolOp.select, PoolOp.select, PoolOp.release 0,
        PoolOp.release 1] (List.replicate 2 0)).1, x = 0 :=
  C9_engine_pool.2.2.2 2 _ (by decide) (by decide)

/-- A row of the `async_tts_tasks` table (`app/core/database.py`);
`completed_at` is modelled as a flag recording whether the column has
been stamped. -/
structure TaskRow where
  task_id : String
  status : String
  audio_address : Option String
  sentences : Option String
  error_code : Int
  error_message : String
  completed_at : Bool
deriving DecidableEq

/-- Python truthiness of an optional string argument. -/
def optTruthy (o : Option String) : Bool :=
  match o with
  | none => false
  | some s => decide (s ≠ "")

/-- Embeds the SET clause built by `DatabaseManager.update_task_status`
applied to one row: status, error code and error message are written
unconditionally, `audio_address` and `sentences` only when truthy, and
`completed_at` is stamped when the new status is terminal. -/
def applyStatusUpdate (r : TaskRow) (status : String)
    (audio_address sentences : Option String) (error_code : Int)
    (error_message : String) : TaskRow :=
  { r with
    status := status
    error_code := error_code
    error_message := error_message
    audio_address := if optTruthy audio_address then audio_address else r.audio_address
    sentences := if optTruthy sentences then sentences else r.sentences
    completed_at := if status = "SUCCESS" ∨ status = "FAILED" then true
      else r.completed_at }

/-- Embeds `DatabaseManager.update_task_status`: the UPDATE carries no
guard on the current status — it rewrites every row whose `task_id`
matches and reports `true`. -/
def update_task_status (db : List TaskRow) (task_id status : String)
    (audio_address sentences : Option String) (error_code : Int)
    (error_message : String) : List TaskRow × Bool :=
  (db.map (fun r => if r.task_id = task_id then
      applyStatusUpdate r status audio_address sentences error_code error_message
    else r), true)

/-- Embeds `DatabaseManager.get_pending_tasks`: rows with status
RUNNING, in `created_at` order (the list order), up to `limit`. -/
def get_pending_tasks (db : List TaskRow) (limit : Nat) : List TaskRow :=
  (db.filter (fun r => r.status = "RUNNING")).take limit

/-- Default row used for indexed access. -/
def defaultTaskRow : TaskRow := ⟨"", "", none, none, 0, "", false⟩

/-- A terminal row used in the C3 counterexample. -/
def doneRow : TaskRow :=
  ⟨"task1", "SUCCESS", some "/tmp/a.wav", none, 20000000, "SUCCESS", true⟩

/-- C3 counterexample: `update_task_status` on a task already in the
terminal state SUCCESS is not rejected — it reports success and rewrites
the row to FAILED. -/
theorem C3_update_terminal_counterexample :
    doneRow.status = "SUCCESS" ∧
    (update_task_status [doneRow] "task1" "FAILED" none none 50000000 "down").2
      = true ∧
    (update_task_status [doneRow] "task1" "FAILED" none none 50000000 "down").1
      ≠ [doneRow] ∧
    ((update_task_status [doneRow] "task1" "FAILED" none none 50000000
      "down").1.map TaskRow.status) = ["FAILED"] := by
  refine ⟨rfl, rfl, ?_, rfl⟩
  decide

/-- C3 amended: `update_task_status` itself applies unconditionally; the
one-way lattice RUNNING to SUCCESS or FAILED holds for the system
because the background worker — the only mutator — selects its targets
through `get_pending_tasks`, which returns only RUNNING rows, so a row
in a terminal state is never selected and (task ids being unique) never
rewritten by a worker update. -/
theorem C3_task_status_lattice :
    (∀ (db : List TaskRow) (limit : Nat) (r : TaskRow),
      r ∈ get_pending_tasks db limit → r.status = "RUNNING") ∧
    (∀ db : List TaskRow, (db.map TaskRow.task_id).Nodup →
      ∀ (limit : Nat) (p : TaskRow), p ∈ get_pending_tasks db limit →
      ∀ (status : String) (aa ss : Option String) (ec : Int) (em : String)
        (i : Nat), i < db.length →
        ((db.getD i defaultTaskRow).status = "SUCCESS" ∨
          (db.getD i defaultTaskRow).status = "FAILED") →
        (update_task_status db p.task_id status aa ss ec em).1.getD i
            defaultTaskRow = db.getD i defaultTaskRow) := by
  have hpend : ∀ (db : List TaskRow) (limit : Nat) (r : TaskRow),
      r ∈ get_pending_tasks db limit → r.status = "RUNNING" := by
    intro db limit r hr
    have hr2 : r ∈ db.filter (fun x => x.status = "RUNNING") :=
      List.take_subset _ _ hr
    have := List.of_mem_filter hr2
    simpa using this
  refine ⟨hpend, ?_⟩
  intro db hnodup limit p hp status aa ss ec em i hi hterm
  have hpdb : p ∈ db :=
    List.mem_of_mem_filter (List.take_subset _ _ hp)
  have hprun : p.status = "RUNNING" := hpend db limit p hp
  have hgd : db.getD i defaultTaskRow = db[i] := by
    rw [List.getD_eq_getElem?_getD, List.getElem?_eq_getElem hi]
    rfl
  have hidb : db[i] ∈ db := List.getElem_mem hi
  have hne : db[i].task_id ≠ p.task_id := by
    intro heq
    have hip : db[i] = p := List.inj_on_of_nodup_map hnodup hidb hpdb heq
    rw [hip] at hgd
    rw [hgd] at hterm
    rcases hterm with h | h <;> rw [hprun] at h <;> exact absurd h (by decide)
  have hmap : (update_task_status db p.task_id status aa ss ec em).1 =
      db.map (fun r => if r.task_id = p.task_id then
        applyStatusUpdate r status aa ss ec em else r) := rfl
  rw [hmap, List.getD_eq_getElem?_getD, List.getElem?_map,
    List.getElem?_eq_getElem hi]
  simp only [Option.map_some', Option.getD_some]
  rw [if_neg hne, hgd]

/-- Witness for `C3_task_status_lattice`: a two-row store where the
worker updates the pending row; the terminal row is untouched. -/
theorem C3_task_status_lattice_witness :
    (update_task_status
        [⟨"a", "SUCCESS", none, none, 20000000, "SUCCESS", true⟩,
          ⟨"b", "RUNNING", none, none, 20000000, "RUNNING", false⟩]
        "b" "SUCCESS" none none 20000000 "SUCCESS").1.getD 0 defaultTaskRow =
      ([⟨"a", "SUCCESS", none, none, 20000000, "SUCCESS", true⟩,
        ⟨"b", "RUNNING", none, none, 20000000, "RUNNING", false⟩] :
        List TaskRow).getD 0 defaultTaskRow :=
  C3_task_status_lattice.2 _ (by decide) 5
    ⟨"b", "RUNNING", none, none, 20000000, "RUNNING", false⟩ (by decide)
    "SUCCESS" none none 20000000 "SUCCESS" 0 (by decide) (Or.inl (by decide))

/-- Connection state of a TTS WebSocket session
(`websocket_tts.py::ConnectionState`). -/
inductive TTSConnState where
  | ready
  | started
  | completed
deriving DecidableEq

/-- The parsed body of an inbound TTS control frame.  `startMsg`
carries whether `_parse_start_synthesis` accepted the parameters,
`runMsg` whether the header task id matches plus the payload text,
`stopMsg` whether the task id matches; `otherMsg` is any other message
name. -/
inductive TTSCtl where
  | startMsg (paramsValid : Bool)
  | runMsg (taskMatch : Bool) (text : String)
  | stopMsg (taskMatch : Bool)
  | otherMsg
deriving DecidableEq

/-- An inbound TTS control frame: namespace validity plus the parsed
body. -/
structure TTSEvent where
  nsOk : Bool
  ctl : TTSCtl
deriving DecidableEq

/-- Outbound TTS wire messages. -/
inductive TTSMsg where
  | synthesisStarted
  | sentenceBegin
  | audioChunk
  | sentenceSynthesis
  | sentenceEnd
  | synthesisCompleted
  | taskFailed (reason : String)
deriving DecidableEq

/-- TTS session state: the connection state, whether StartSynthesis
parameters are stored, and how many RunSynthesis messages have been
processed. -/
structure TTSSession where
  st : TTSConnState
  hasParams : Bool
  runs : Nat
deriving DecidableEq

/-- Messages emitted by `_run_synthesis` for one RunSynthesis when the
engine generator yields `chunks` audio chunks: SentenceBegin, then per
chunk the binary frame and a SentenceSynthesis progress message, then
SentenceEnd. -/
def runSynthesisMsgs (chunks : Nat) : List TTSMsg :=
  [TTSMsg.sentenceBegin] ++
    (List.replicate chunks [TTSMsg.audioChunk, TTSMsg.sentenceSynthesis]).join ++
    [TTSMsg.sentenceEnd]

/-- One iteration of the TTS session loop
(`AliyunWebSocketTTSService._process_websocket_connection`), driven by
an oracle `chunksOf` giving the number of audio chunks the engine
yields for the n-th RunSynthesis. -/
def ttsStep (chunksOf : Nat → Nat) (s : TTSSession) (e : TTSEvent) :
    TTSSession × List TTSMsg :=
  if e.nsOk = false then (s, [TTSMsg.taskFailed "Invalid namespace"])
  else
    match e.ctl with
    | TTSCtl.startMsg valid =>
      if s.st = TTSConnState.ready then
        if valid then
          ({ s with st := TTSConnState.started, hasParams := true },
            [TTSMsg.synthesisStarted])
        else (s, [TTSMsg.taskFailed "Invalid StartSynthesis parameters"])
      else (s, [TTSMsg.taskFailed "Connection already started"])
    | TTSCtl.runMsg tm text =>
      if s.st = TTSConnState.started then
        if tm = false then (s, [TTSMsg.taskFailed "Task ID not match"])
        else if text ≠ "" ∧ s.hasParams = true then
          ({ s with runs := s.runs + 1 }, runSynthesisMsgs (chunksOf s.runs))
        else (s, [TTSMsg.taskFailed "Missing text in RunSynthesis"])
      else (s, [TTSMsg.taskFailed "Connection not started"])
    | TTSCtl.stopMsg tm =>
      if s.st = TTSConnState.started then
        if tm = false then (s, [TTSMsg.taskFailed "Task ID not match"])
        else ({ s with st := TTSConnState.completed },
          [TTSMsg.synthesisCompleted])
      else (s, [TTSMsg.taskFailed "Connection not started"])
    | TTSCtl.otherMsg => (s, [TTSMsg.taskFailed "Invalid message name"])

/-- Run the TTS session loop over a list of inbound frames; the loop
exits once the state is Completed. -/
def ttsRun (chunksOf : Nat → Nat) (s : TTSSession) :
    List TTSEvent → TTSSession × List TTSMsg
  | [] => (s, [])
  | e :: es =>
    if s.st = TTSConnState.completed then (s, [])
    else
      let r1 := ttsStep chunksOf s e
      let r2 := ttsRun chunksOf r1.1 es
      (r2.1, r1.2 ++ r2.2)

/-- Fresh TTS session as created on WebSocket accept. -/
def initTTS : TTSSession := ⟨TTSConnState.ready, false, 0⟩

/-- C2 counterexample: a session consisting of StartSynthesis directly
followed by StopSynthesis reaches SynthesisCompleted having processed
zero RunSynthesis messages, so the accepted grammar admits zero Run
messages, not at least one. -/
theorem C2_tts_grammar_counterexample :
    (ttsRun (fun _ => 1) initTTS
        [⟨true, TTSCtl.startMsg true⟩, ⟨true, TTSCtl.stopMsg true⟩]).2 =
      [TTSMsg.synthesisStarted, TTSMsg.synthesisCompleted] ∧
    (ttsRun (fun _ => 1) initTTS
        [⟨true, TTSCtl.startMsg true⟩, ⟨true, TTSCtl.stopMsg true⟩]).1.runs
      = 0 ∧
    (ttsRun (fun _ => 1) initTTS
        [⟨true, TTSCtl.startMsg true⟩, ⟨true, TTSCtl.stopMsg true⟩]).1.st =
      TTSConnState.completed :=
  ⟨rfl, rfl, rfl⟩

/-- C2 amended: StartSynthesis is accepted only in Ready (and moves to
Started), RunSynthesis and StopSynthesis only in Started; RunSynthesis
leaves the state in Started so it may repeat; every other frame draws a
TaskFailed; the state only ever moves Ready to Started to Completed; but
a session may reach SynthesisCompleted with zero processed RunSynthesis
messages, so the accepted grammar is Start (Run)* Stop. -/
theorem C2_tts_grammar (chunksOf : Nat → Nat) (s : TTSSession) (e : TTSEvent) :
    (TTSMsg.synthesisStarted ∈ (ttsStep chunksOf s e).2 ↔
      e.nsOk = true ∧ e.ctl = TTSCtl.startMsg true ∧
        s.st = TTSConnState.ready) ∧
    (TTSMsg.sentenceBegin ∈ (ttsStep chunksOf s e).2 ↔
      (∃ t, e.nsOk = true ∧ e.ctl = TTSCtl.runMsg true t ∧ t ≠ "" ∧
        s.hasParams = true ∧ s.st = TTSConnState.started)) ∧
    ((ttsStep chunksOf s e).1.runs = s.runs + 1 ↔
      (∃ t, e.nsOk = true ∧ e.ctl = TTSCtl.runMsg true t ∧ t ≠ "" ∧
        s.hasParams = true ∧ s.st = TTSConnState.started)) ∧
    (TTSMsg.synthesisCompleted ∈ (ttsStep chunksOf s e).2 ↔
      e.nsOk = true ∧ e.ctl = TTSCtl.stopMsg true ∧
        s.st = TTSConnState.started) ∧
    ((ttsStep chunksOf s e).1.st ≠ s.st →
      (s.st = TTSConnState.ready ∧
        (ttsStep chunksOf s e).1.st = TTSConnState.started ∧
        e.nsOk = true ∧ e.ctl = TTSCtl.startMsg true) ∨
      (s.st = TTSConnState.started ∧
        (ttsStep chunksOf s e).1.st = TTSConnState.completed ∧
        e.nsOk = true ∧ e.ctl = TTSCtl.stopMsg true)) ∧
    (¬ (e.nsOk = true ∧
        ((e.ctl = TTSCtl.startMsg true ∧ s.st = TTSConnState.ready) ∨
          (∃ t, e.ctl = TTSCtl.runMsg true t ∧ t ≠ "" ∧
            s.hasParams = true ∧ s.st = TTSConnState.started) ∨
          (e.ctl = TTSCtl.stopMsg true ∧ s.st = TTSConnState.started))) →
      ∃ reason, (ttsStep chunksOf s e).2 = [TTSMsg.taskFailed reason]) := by
  obtain ⟨ns, ctl⟩ := e
  obtain ⟨st, hp, runs⟩ := s
  cases ns <;> cases st <;>
    rcases ctl with valid | ⟨tm, text⟩ | tm2 | _ <;>
    first
      | (cases valid <;> simp [ttsStep, runSynthesisMsgs] <;> tauto)
      | (cases tm <;>
          by_cases htext : text = "" <;>
          by_cases hhp : hp = true <;>
          simp [ttsStep, runSynthesisMsgs, htext, hhp] <;> tauto)
      | (cases tm2 <;> simp [ttsStep, runSynthesisMsgs] <;> tauto)
      | (simp [ttsStep, runSynthesisMsgs] <;> tauto)

/-- Witness for `C2_tts_grammar`: a valid StartSynthesis in the fresh
session is accepted. -/
theorem C2_tts_grammar_witness :
    TTSMsg.synthesisStarted ∈
      (ttsStep (fun _ => 0) initTTS ⟨true, TTSCtl.startMsg true⟩).2 :=
  (C2_tts_grammar (fun _ => 0) initTTS ⟨true, TTSCtl.startMsg true⟩).1.mpr
    ⟨rfl, rfl, rfl⟩

/-- Mean square of the samples — the square of
`app/utils/audio_filter.py::calculate_rms_energy` (zero on an empty
array).  The source compares `sqrt(meanSquare) >= t`; for the
nonnegative thresholds the service configures this is equivalent to
`meanSquare >= t * t`, which keeps the embedding inside ℚ. -/
def meanSquare (xs : List ℚ) : ℚ :=
  if xs = [] then 0 else (xs.map (fun x => x * x)).sum / xs.length

/-- Embeds `app/utils/audio_filter.py::is_nearfield_voice` (RMS-only
gate): everything passes when the filter is disabled; an empty chunk is
rejected; otherwise the chunk passes when its RMS energy reaches the
threshold (compared here in squared form). -/
def is_nearfield_voice (xs : List ℚ) (rms_threshold : ℚ)
    (enable_filter : Bool) : Bool :=
  if enable_filter = false then true
  else if xs = [] then false
  else decide (rms_threshold * rms_threshold ≤ meanSquare xs)

/-- Largest absolute sample value (`np.max(np.abs(x))`; 0 on empty). -/
def maxAbs (xs : List ℚ) : ℚ :=
  xs.foldl (fun m x => max m |x|) 0

/-- Embeds `AliyunWebSocketASRService._is_silence_frame` at its default
threshold 0.001: empty frames are silent, otherwise the frame is silent
when the maximum amplitude is below twice the threshold. -/
def isSilenceFrame (xs : List ℚ) : Bool :=
  if xs = [] then true else decide (maxAbs xs < 1 / 500)

/-- Duration of a chunk in milliseconds, `int(samples / rate * 1000)`.
For the standard chunk sizes (3840 and 9600 samples at 16 kHz) the
Python double computation lands exactly on 240 and 600, so natural
floor division is faithful. -/
def chunkDurationMs (n sampleRate : Nat) : Nat := n * 1000 / sampleRate

/-- The StartTranscription parameters the session keeps
(`_parse_start_transcription`). -/
structure ASRParams where
  sampleRate : Nat
  enableIntermediate : Bool
  enablePunc : Bool
  enableITN : Bool
  maxSentenceSilence : Nat
deriving DecidableEq

instance : Inhabited ASRParams := ⟨⟨16000, true, true, true, 800⟩⟩

/-- The environment settings the ASR loop reads
(`ASR_NEARFIELD_RMS_THRESHOLD`, `ASR_ENABLE_NEARFIELD_FILTER`). -/
structure ASRSettings where
  nearfieldThreshold : ℚ
  enableNearfield : Bool
deriving DecidableEq

/-- One answer of the realtime ASR model pipeline inside
`_process_audio_chunk`: the display text (possibly realtime-punctuated)
and the raw text. -/
structure ModelOut where
  text : String
  textRaw : String
deriving DecidableEq

/-- Oracle for the out-of-scope neural models: `model n` is the result
of the n-th call to the realtime recognizer (counting from 0, flush
calls included), `finalPunc` the offline punctuation model, `itn` the
inverse text normalizer. -/
structure ASROracle where
  model : Nat → ModelOut
  finalPunc : String → String
  itn : String → String

/-- Connection state of an ASR WebSocket session
(`websocket_asr.py::ConnectionState`). -/
inductive ASRConnState where
  | ready
  | started
  | completed
deriving DecidableEq

/-- Outbound ASR wire messages (payload fields relevant to the claims). -/
inductive ASRMsg where
  | transcriptionStarted
  | sentenceBegin (index time : Nat)
  | resultChanged (index time : Nat) (result : String)
  | sentenceEnd (index time : Nat) (result : String) (beginTime : Nat)
  | transcriptionCompleted
  | taskFailed (reason : String)
deriving DecidableEq

/-- The per-connection state of
`AliyunWebSocketASRService._process_websocket_connection`: one field per
local variable of the loop (`modelCalls` counts the realtime model
invocations and feeds the oracle). -/
structure ASRSession where
  st : ASRConnState
  params : Option ASRParams
  sentenceIndex : Nat
  audioTime : Nat
  sentenceActive : Bool
  sentenceStartTime : Nat
  lastSentenceText : String
  sentenceTexts : List String
  sentenceTextsRaw : List String
  emptyResultCount : Nat
  audioBuffer : List ℚ
  modelCalls : Nat

/-- Append-if-different-from-tail, the deduplication applied to both
partial-text lists. -/
def dedupAppend (l : List String) (s : String) : List String :=
  if l.getLast? ≠ some s then l ++ [s] else l

/-- Final text of a sentence: join the raw partials, then apply the
offline punctuation model when the client asked for punctuation
(`_apply_final_punctuation_to_sentence`). -/
def finalSentenceText (O : ASROracle) (p : ASRParams)
    (raws : List String) : String :=
  let full := String.join raws
  if p.enablePunc then O.finalPunc full else full

/-- ITN application inside `_send_sentence_end`: applied when the client
enabled it and the result is nonempty. -/
def sentenceEndResult (O : ASROracle) (p : ASRParams) (txt : String) : String :=
  if p.enableITN ∧ txt ≠ "" then O.itn txt else txt

/-- One iteration of the inner chunk loop of the ASR session
(`_process_websocket_connection`, lines 294 onward): the nearfield gate
with its adaptive threshold, the model call via `_process_audio_chunk`,
the consecutive-empty endpoint rule, the silence-frame endpoint rule,
the sentence-end flush, and the dedup/activation path. -/
def processChunk (S : ASRSettings) (O : ASROracle) (p : ASRParams)
    (s : ASRSession) (chunk : List ℚ) : ASRSession × List ASRMsg :=
  let chunkStart := s.audioTime
  let dur := chunkDurationMs chunk.length p.sampleRate
  let effThreshold := if s.sentenceActive then S.nearfieldThreshold * (3 / 5)
    else S.nearfieldThreshold
  let near := is_nearfield_voice chunk effThreshold S.enableNearfield
  if near = false ∧ s.sentenceActive = false then
    ({ s with audioTime := s.audioTime + dur }, [])
  else
    let out := if near then O.model s.modelCalls else ⟨"", ""⟩
    let isSil := if near then decide (400 ≤ dur) && isSilenceFrame chunk
      else false
    let s1 := if near then
        { s with
          audioTime := s.audioTime + dur
          modelCalls := s.modelCalls + 1 }
      else { s with audioTime := s.audioTime + dur }
    let maxEmpty := max 3 (p.maxSentenceSilence * 2 / 600)
    let ec := if out.text = "" then s.emptyResultCount + 1 else 0
    let endByCount : Bool := decide (out.text = "") && s.sentenceActive &&
      decide (maxEmpty ≤ ec)
    let endBySilence : Bool := isSil && s.sentenceActive &&
      decide (s.sentenceTextsRaw ≠ [])
    if (endByCount || endBySilence) = true ∧ s.sentenceActive = true then
      let flush := O.model s1.modelCalls
      let s2 := { s1 with modelCalls := s1.modelCalls + 1 }
      let raws := if flush.textRaw ≠ "" then
          dedupAppend s.sentenceTextsRaw flush.textRaw
        else s.sentenceTextsRaw
      let idx := s.sentenceIndex + 1
      let txt := sentenceEndResult O p (finalSentenceText O p raws)
      ({ s2 with
          sentenceIndex := idx
          sentenceActive := false
          sentenceStartTime := 0
          lastSentenceText := ""
          sentenceTexts := []
          sentenceTextsRaw := []
          emptyResultCount := 0 },
        [ASRMsg.sentenceEnd idx s2.audioTime txt s.sentenceStartTime])
    else
      if out.text ≠ "" ∧ out.text ≠ s.lastSentenceText then
        if s.sentenceActive = false then
          let s2 := { s1 with
              sentenceActive := true
              sentenceStartTime := chunkStart
              lastSentenceText := out.text
              sentenceTexts := [out.text]
              sentenceTextsRaw := [out.textRaw]
              emptyResultCount := 0 }
          (s2, [ASRMsg.sentenceBegin (s.sentenceIndex + 1) chunkStart] ++
            (if p.enableIntermediate then
              [ASRMsg.resultChanged (s.sentenceIndex + 1) s2.audioTime out.text]
            else []))
        else
          let texts := dedupAppend s.sentenceTexts out.text
          let s2 := { s1 with
              lastSentenceText := out.text
              sentenceTexts := texts
              sentenceTextsRaw := dedupAppend s.sentenceTextsRaw out.textRaw
              emptyResultCount := ec }
          (s2, if p.enableIntermediate then
              [ASRMsg.resultChanged (s.sentenceIndex + 1) s2.audioTime
                (String.join texts)]
            else [])
      else
        ({ s1 with emptyResultCount := ec }, [])

/-- Embeds the chunk-size pick of the buffer loop: iterate over the
standard sizes in decreasing order and take the first that fits; below
the smallest standard size nothing is selected. -/
def selectChunkSize (n : Nat) : Option Nat :=
  if 9600 ≤ n then some 9600 else if 3840 ≤ n then some 3840 else none

/-- The `while len(audio_buffer) >= selected_chunk_size` loop: detach a
chunk of the selected size from the front, process it, repeat; return
the leftover buffer, the final state and the emitted messages. -/
def chunkLoop (S : ASRSettings) (O : ASROracle) (p : ASRParams) (size : Nat)
    (buf : List ℚ) (s : ASRSession) : List ℚ × ASRSession × List ASRMsg :=
  if h : 0 < size ∧ size ≤ buf.length then
    let r1 := processChunk S O p s (buf.take size)
    let r2 := chunkLoop S O p size (buf.drop size) r1.1
    (r2.1, r2.2.1, r1.2 ++ r2.2.2)
  else (buf, s, [])
termination_by buf.length
decreasing_by
  simp only [List.length_drop]
  omega

/-- Handling of one inbound binary audio frame in state Started: append
the decoded samples to the buffer, pick the chunk size, run the chunk
loop, and keep the leftover samples in the buffer. -/
def binaryFrame (S : ASRSettings) (O : ASROracle) (p : ASRParams)
    (s : ASRSession) (incoming : List ℚ) : ASRSession × List ASRMsg :=
  let buf := s.audioBuffer ++ incoming
  match selectChunkSize buf.length with
  | none => ({ s with audioBuffer := buf }, [])
  | some size =>
    let r := chunkLoop S O p size buf { s with audioBuffer := buf }
    ({ r.2.1 with audioBuffer := r.1 }, r.2.2)

/-- The parsed inbound events of the ASR session loop. -/
inductive ASREvent where
  | startMsg (params : Option ASRParams)
  | stopMsg (taskMatch : Bool)
  | badNamespace
  | badName
  | binary (samples : List ℚ)

/-- One iteration of the ASR session loop
(`AliyunWebSocketASRService._process_websocket_connection`).  In state
Started the stored parameters are always present; the `getD` default in
the stop handler is never reached on runs from the initial state. -/
def asrStep (S : ASRSettings) (O : ASROracle) (s : ASRSession)
    (e : ASREvent) : ASRSession × List ASRMsg :=
  match e with
  | ASREvent.badNamespace => (s, [ASRMsg.taskFailed "Invalid namespace"])
  | ASREvent.startMsg op =>
    if s.st = ASRConnState.ready then
      match op with
      | some p =>
        ({ s with
            st := ASRConnState.started
            params := some p
            sentenceIndex := 0
            audioTime := 0
            sentenceActive := false
            sentenceStartTime := 0
            lastSentenceText := ""
            sentenceTexts := []
            sentenceTextsRaw := []
            emptyResultCount := 0 },
          [ASRMsg.transcriptionStarted])
      | none => (s, [ASRMsg.taskFailed "Invalid StartTranscription parameters"])
    else (s, [ASRMsg.taskFailed "Connection already started"])
  | ASREvent.stopMsg tm =>
    if s.st = ASRConnState.started then
      if tm = false then (s, [ASRMsg.taskFailed "Task ID not match"])
      else
        let p := s.params.getD default
        if s.sentenceActive = true ∧ s.sentenceTextsRaw ≠ [] then
          ({ s with
              st := ASRConnState.completed
              sentenceIndex := s.sentenceIndex + 1 },
            [ASRMsg.sentenceEnd (s.sentenceIndex + 1) s.audioTime
                (sentenceEndResult O p (finalSentenceText O p s.sentenceTextsRaw))
                s.sentenceStartTime,
              ASRMsg.transcriptionCompleted])
        else
          ({ s with st := ASRConnState.completed },
            [ASRMsg.transcriptionCompleted])
    else (s, [ASRMsg.taskFailed "Connection not started"])
  | ASREvent.badName => (s, [ASRMsg.taskFailed "Invalid message name"])
  | ASREvent.binary samples =>
    if s.st = ASRConnState.started then
      match s.params with
      | none => (s, [ASRMsg.taskFailed "StartTranscription not received"])
      | some p => binaryFrame S O p s samples
    else (s, [ASRMsg.taskFailed "Connection not started"])

/-- Run the ASR session loop over a list of inbound events; the loop
exits once the state is Completed. -/
def asrRun (S : ASRSettings) (O : ASROracle) (s : ASRSession) :
    List ASREvent → ASRSession × List ASRMsg
  | [] => (s, [])
  | e :: es =>
    if s.st = ASRConnState.completed then (s, [])
    else
      let r1 := asrStep S O s e
      let r2 := asrRun S O r1.1 es
      (r2.1, r1.2 ++ r2.2)

/-- Fresh ASR session as created on WebSocket accept. -/
def initASR : ASRSession :=
  ⟨ASRConnState.ready, none, 0, 0, false, 0, "", [], [], 0, [], 0⟩

/-- Oracle whose realtime model always returns the same pair and whose
punctuation and ITN stages are the identity; used for concrete runs. -/
def constOracle (t r : String) : ASROracle :=
  ⟨fun _ => ⟨t, r⟩, fun x => x, fun x => x⟩

/-- C1 counterexample: a session is started, receives 100 samples of
audio (buffered, below the minimum chunk size) and then
StopTranscription.  The stop handler makes no model call at all — in
particular no `isFinal=true` flush — and the buffered audio is left
undrained; the session still completes. -/
theorem C1_stop_counterexample :
    (asrRun ⟨1 / 100, false⟩ (constOracle "" "") initASR
        [ASREvent.startMsg (some default),
          ASREvent.binary (List.replicate 100 (1 / 2)),
          ASREvent.stopMsg true]).1.st = ASRConnState.completed ∧
    (asrRun ⟨1 / 100, false⟩ (constOracle "" "") initASR
        [ASREvent.startMsg (some default),
          ASREvent.binary (List.replicate 100 (1 / 2)),
          ASREvent.stopMsg true]).1.modelCalls = 0 ∧
    (asrRun ⟨1 / 100, false⟩ (constOracle "" "") initASR
        [ASREvent.startMsg (some default),
          ASREvent.binary (List.replicate 100 (1 / 2)),
          ASREvent.stopMsg true]).1.audioBuffer.length = 100 ∧
    (asrRun ⟨1 / 100, false⟩ (constOracle "" "") initASR
        [ASREvent.startMsg (some default),
          ASREvent.binary (List.replicate 100 (1 / 2)),
          ASREvent.stopMsg true]).2 =
      [ASRMsg.transcriptionStarted, ASRMsg.transcriptionCompleted] := by
  refine ⟨rfl, rfl, ?_, rfl⟩
  rfl

/-- C1 amended: processing StopTranscription in state Started makes no
model call and leaves the audio buffer untouched; if a sentence
accumulator is active and holds raw text, one final punctuated
SentenceEnd is emitted; then TranscriptionCompleted is sent and the
state becomes Completed. -/
theorem C1_stop_transcription (S : ASRSettings) (O : ASROracle)
    (s : ASRSession) (p : ASRParams) (hst : s.st = ASRConnState.started)
    (hp : s.params = some p) :
    (asrStep S O s (ASREvent.stopMsg true)).1.st = ASRConnState.completed ∧
    (asrStep S O s (ASREvent.stopMsg true)).1.modelCalls = s.modelCalls ∧
    (asrStep S O s (ASREvent.stopMsg true)).1.audioBuffer = s.audioBuffer ∧
    (asrStep S O s (ASREvent.stopMsg true)).2 =
      (if s.sentenceActive = true ∧ s.sentenceTextsRaw ≠ [] then
        [ASRMsg.sentenceEnd (s.sentenceIndex + 1) s.audioTime
          (sentenceEndResult O p (finalSentenceText O p s.sentenceTextsRaw))
          s.sentenceStartTime]
      else []) ++ [ASRMsg.transcriptionCompleted] := by
  simp only [asrStep, hst, hp, if_pos rfl]
  by_cases hact : s.sentenceActive = true ∧ s.sentenceTextsRaw ≠ [] <;>
    simp [hact]

/-- Witness for `C1_stop_transcription`: a Started session with an
active accumulated sentence emits the final SentenceEnd and completes. -/
theorem C1_stop_transcription_witness :
    (asrStep ⟨1 / 100, false⟩ (constOracle "x" "x")
        ⟨ASRConnState.started, some default, 0, 840, true, 240, "好",
          ["好"], ["好"], 0, [], 3⟩
        (ASREvent.stopMsg true)).2 =
      [ASRMsg.sentenceEnd 1 840 "好" 240, ASRMsg.transcriptionCompleted] :=
  ((C1_stop_transcription ⟨1 / 100, false⟩ (constOracle "x" "x")
      ⟨ASRConnState.started, some default, 0, 840, true, 240, "好",
        ["好"], ["好"], 0, [], 3⟩ default rfl rfl).2.2.2).trans (by rfl)

/-- The successive chunks of `size` samples the loop detaches from the
front of `buf` before it stops. -/
def splitChunks (size : Nat) (buf : List ℚ) : List (List ℚ) :=
  (List.range (buf.length / size)).map (fun i => (buf.drop (i * size)).take size)

theorem splitChunks_empty (size : Nat) (buf : List ℚ)
    (h : buf.length < size) : splitChunks size buf = [] := by
  unfold splitChunks
  rw [Nat.div_eq_of_lt h]
  rfl

theorem splitChunks_cons (size : Nat) (buf : List ℚ) (h0 : 0 < size)
    (h : size ≤ buf.length) :
    splitChunks size buf = buf.take size :: splitChunks size (buf.drop size) := by
  unfold splitChunks
  rw [Nat.div_eq_sub_div h0 h, List.range_succ_eq_map, List.map_cons,
    List.map_map, List.length_drop]
  refine congrArg₂ _ (by simp) ?_
  refine List.map_congr_left (fun i _ => ?_)
  simp only [Function.comp_apply, List.drop_drop]
  rw [Nat.succ_mul, Nat.add_comm]

/-- Accumulator-shift for the processing fold. -/
theorem processFold_shift (S : ASRSettings) (O : ASROracle) (p : ASRParams)
    (chunks : List (List ℚ)) (x : ASRSession) (ms : List ASRMsg) :
    chunks.foldl (fun a c =>
        ((processChunk S O p a.1 c).1, a.2 ++ (processChunk S O p a.1 c).2))
        (x, ms) =
      ((chunks.foldl (fun a c =>
          ((processChunk S O p a.1 c).1, a.2 ++ (processChunk S O p a.1 c).2))
          (x, [])).1,
        ms ++ (chunks.foldl (fun a c =>
          ((processChunk S O p a.1 c).1, a.2 ++ (processChunk S O p a.1 c).2))
          (x, [])).2) := by
  induction chunks generalizing x ms with
  | nil => simp
  | cons c cs ih =>
    simp only [List.foldl_cons, List.nil_append]
    rw [ih, ih (processChunk S O p x c).1 (processChunk S O p x c).2,
      List.append_assoc]

/-- The while loop equals a fold of `processChunk` over the detached
chunks, with the remainder `buf.drop (size * (buf.length / size))` left
over. -/
theorem chunkLoop_eq (S : ASRSettings) (O : ASROracle) (p : ASRParams)
    (size : Nat) (h0 : 0 < size) (buf : List ℚ) (s : ASRSession) :
    chunkLoop S O p size buf s =
      (buf.drop (size * (buf.length / size)),
        ((splitChunks size buf).foldl (fun a c =>
          ((processChunk S O p a.1 c).1, a.2 ++ (processChunk S O p a.1 c).2))
          (s, [])).1,
        ((splitChunks size buf).foldl (fun a c =>
          ((processChunk S O p a.1 c).1, a.2 ++ (processChunk S O p a.1 c).2))
          (s, [])).2) := by
  suffices H : ∀ (n : Nat) (buf : List ℚ) (s : ASRSession), buf.length = n →
      chunkLoop S O p size buf s =
        (buf.drop (size * (buf.length / size)),
          ((splitChunks size buf).foldl (fun a c =>
            ((processChunk S O p a.1 c).1, a.2 ++ (processChunk S O p a.1 c).2))
            (s, [])).1,
          ((splitChunks size buf).foldl (fun a c =>
            ((processChunk S O p a.1 c).1, a.2 ++ (processChunk S O p a.1 c).2))
            (s, [])).2) by
    exact H buf.length buf s rfl
  intro n
  induction n using Nat.strong_induction_on with
  | _ n ih =>
    intro buf s hn
    subst hn
    by_cases hle : size ≤ buf.length
    · have hdrop : (buf.drop size).length < buf.length := by
        rw [List.length_drop]; omega
      rw [chunkLoop, dif_pos ⟨h0, hle⟩]
      dsimp only
      rw [ih (buf.drop size).length hdrop (buf.drop size)
          (processChunk S O p s (buf.take size)).1 rfl,
        splitChunks_cons size buf h0 hle]
      simp only [List.foldl_cons, List.nil_append]
      rw [processFold_shift S O p (splitChunks size (buf.drop size))
        (processChunk S O p s (buf.take size)).1
        (processChunk S O p s (buf.take size)).2]
      simp only [List.drop_drop]
      have harith : size + size * ((buf.drop size).length / size) =
          size * (buf.length / size) := by
        rw [List.length_drop, Nat.div_eq_sub_div h0 hle, Nat.mul_add,
          Nat.mul_one, Nat.add_comm]
      rw [harith]
    · rw [chunkLoop, dif_neg (by omega)]
      rw [splitChunks_empty size buf (by omega), Nat.div_eq_of_lt (by omega)]
      simp

/-- C8: on each binary frame the loop picks the largest standard chunk
size (9600 or 3840 samples) that fits the buffer; if none fits, the
frame is only buffered, nothing is processed and no model call is made;
otherwise the loop folds `processChunk` over consecutive chunks of
exactly the selected size and leaves the remainder (shorter than the
selected size) in the buffer. -/
theorem C8_chunk_accretion (S : ASRSettings) (O : ASROracle) (p : ASRParams)
    (s : ASRSession) (incoming : List ℚ) :
    (∀ sz, selectChunkSize (s.audioBuffer ++ incoming).length = some sz ↔
      ((sz = 9600 ∨ sz = 3840) ∧ sz ≤ (s.audioBuffer ++ incoming).length ∧
        ∀ t, (t = 9600 ∨ t = 3840) →
          t ≤ (s.audioBuffer ++ incoming).length → t ≤ sz)) ∧
    ((s.audioBuffer ++ incoming).length < 3840 →
      binaryFrame S O p s incoming =
        ({ s with audioBuffer := s.audioBuffer ++ incoming }, [])) ∧
    (∀ sz, selectChunkSize (s.audioBuffer ++ incoming).length = some sz →
      binaryFrame S O p s incoming =
        ({ (((splitChunks sz (s.audioBuffer ++ incoming)).foldl (fun a c =>
              ((processChunk S O p a.1 c).1,
                a.2 ++ (processChunk S O p a.1 c).2))
              ({ s with audioBuffer := s.audioBuffer ++ incoming }, [])).1) with
            audioBuffer := (s.audioBuffer ++ incoming).drop
              (sz * ((s.audioBuffer ++ incoming).length / sz)) },
          ((splitChunks sz (s.audioBuffer ++ incoming)).foldl (fun a c =>
            ((processChunk S O p a.1 c).1,
              a.2 ++ (processChunk S O p a.1 c).2))
            ({ s with audioBuffer := s.audioBuffer ++ incoming }, [])).2) ∧
      ((s.audioBuffer ++ incoming).drop
          (sz * ((s.audioBuffer ++ incoming).length / sz))).length =
        (s.audioBuffer ++ incoming).length % sz ∧
      (s.audioBuffer ++ incoming).length % sz < sz ∧
      ∀ c ∈ splitChunks sz (s.audioBuffer ++ incoming), c.length = sz) := by
  set buf := s.audioBuffer ++ incoming with hbuf
  refine ⟨?_, ?_, ?_⟩
  · intro sz
    unfold selectChunkSize
    split_ifs with h1 h2
    · constructor
      · intro hs
        have hsz : sz = 9600 := (Option.some.inj hs).symm
        subst hsz
        refine ⟨Or.inl rfl, h1, ?_⟩
        rintro t (rfl | rfl) ht
        · omega
        · omega
      · rintro ⟨hv, hle, hmax⟩
        rcases hv with rfl | rfl
        · rfl
        · exact absurd (hmax 9600 (Or.inl rfl) h1) (by omega)
    · constructor
      · intro hs
        have hsz : sz = 3840 := (Option.some.inj hs).symm
        subst hsz
        refine ⟨Or.inr rfl, h2, ?_⟩
        rintro t (rfl | rfl) ht
        · exact absurd ht h1
        · omega
      · rintro ⟨hv, hle, hmax⟩
        rcases hv with rfl | rfl
        · exact absurd hle h1
        · rfl
    · constructor
      · intro hs
        exact hs.elim
      · rintro ⟨hv, hle, hmax⟩
        rcases hv with rfl | rfl
        · exact absurd hle h1
        · exact absurd hle h2
  · intro hsmall
    have hnone : selectChunkSize buf.length = none := by
      unfold selectChunkSize
      rw [if_neg (by omega), if_neg (by omega)]
    simp only [binaryFrame, ← hbuf, hnone]
  · intro sz hsz
    have hszval : sz = 9600 ∨ sz = 3840 := by
      unfold selectChunkSize at hsz
      split_ifs at hsz with h1 h2
      · exact Or.inl (Option.some.inj hsz).symm
      · exact Or.inr (Option.some.inj hsz).symm
    have h0 : 0 < sz := by rcases hszval with rfl | rfl <;> omega
    have hle : sz ≤ buf.length := by
      unfold selectChunkSize at hsz
      split_ifs at hsz with h1 h2
      · have hv := (Option.some.inj hsz).symm
        omega
      · have hv := (Option.some.inj hsz).symm
        omega
    refine ⟨?_, ?_, Nat.mod_lt _ h0, ?_⟩
    · simp only [binaryFrame, ← hbuf, hsz, chunkLoop_eq S O p sz h0]
    · rw [List.length_drop]
      have := Nat.div_add_mod buf.length sz
      omega
    · intro c hc
      unfold splitChunks at hc
      rw [List.mem_map] at hc
      obtain ⟨i, hi, rfl⟩ := hc
      rw [List.mem_range] at hi
      have hmul : (i + 1) * sz ≤ buf.length / sz * sz :=
        Nat.mul_le_mul_right sz hi
      rw [Nat.succ_mul] at hmul
      have hdm : buf.length / sz * sz ≤ buf.length := Nat.div_mul_le_self _ _
      rw [List.length_take, List.length_drop, Nat.min_eq_left (by omega)]

/-- Witness for `C8_chunk_accretion`: a frame of 10 samples on an empty
buffer is below the minimum chunk size, so it is only buffered. -/
theorem C8_chunk_accretion_witness :
    binaryFrame ⟨1 / 100, false⟩ (constOracle "" "") default initASR
        (List.replicate 10 0) =
      ({ initASR with audioBuffer := initASR.audioBuffer ++
          List.replicate 10 0 }, []) :=
  (C8_chunk_accretion ⟨1 / 100, false⟩ (constOracle "" "") default initASR
    (List.replicate 10 0)).2.1 (by decide)

/-- C6: within one chunk step (under the hypothesis that the 400 ms
silence-frame trigger does not apply), a nonempty model result resets
the consecutive-empty counter to zero, and an empty-result chunk — an
empty model answer, or a gated (far-field) chunk while a sentence is
active — fires the silence endpoint exactly when the incremented count
reaches `max 3 (maxSentenceSilence * 2 / 600)` while the sentence is
active, incrementing the counter otherwise. -/
theorem C6_silence_endpoint (S : ASRSettings) (O : ASROracle) (p : ASRParams)
    (s : ASRSession) (chunk : List ℚ)
    (hnosil : (decide (400 ≤ chunkDurationMs chunk.length p.sampleRate) &&
      isSilenceFrame chunk) = false) :
    (is_nearfield_voice chunk
        (if s.sentenceActive = true then S.nearfieldThreshold * (3 / 5)
          else S.nearfieldThreshold) S.enableNearfield = true →
      (O.model s.modelCalls).text ≠ "" →
      (processChunk S O p s chunk).1.emptyResultCount = 0) ∧
    ((is_nearfield_voice chunk
        (if s.sentenceActive = true then S.nearfieldThreshold * (3 / 5)
          else S.nearfieldThreshold) S.enableNearfield = true ∧
        (O.model s.modelCalls).text = "") ∨
      (is_nearfield_voice chunk
        (if s.sentenceActive = true then S.nearfieldThreshold * (3 / 5)
          else S.nearfieldThreshold) S.enableNearfield = false ∧
        s.sentenceActive = true) →
      ((∃ i t txt b, ASRMsg.sentenceEnd i t txt b ∈
          (processChunk S O p s chunk).2) ↔
        (s.sentenceActive = true ∧
          max 3 (p.maxSentenceSilence * 2 / 600) ≤ s.emptyResultCount + 1)) ∧
      (¬ (s.sentenceActive = true ∧
          max 3 (p.maxSentenceSilence * 2 / 600) ≤ s.emptyResultCount + 1) →
        (processChunk S O p s chunk).1.emptyResultCount =
          s.emptyResultCount + 1)) := by
  refine ⟨?_, ?_⟩
  · intro hnear htext
    by_cases hact : s.sentenceActive = true
    · rw [if_pos hact] at hnear
      simp [processChunk, hnear, hnosil, htext, hact]
      split_ifs <;> rfl
    · have hact2 : s.sentenceActive = false := by
        cases h : s.sentenceActive
        · rfl
        · exact absurd h hact
      rw [if_neg (by rw [hact2]; exact Bool.false_ne_true)] at hnear
      simp [processChunk, hnear, hnosil, htext, hact2]
      split_ifs <;> rfl
  · intro hemp
    rcases hemp with ⟨hnear, htext⟩ | ⟨hnear, hact⟩
    · by_cases hact : s.sentenceActive = true
      · rw [if_pos hact] at hnear
        by_cases hcnt : max 3 (p.maxSentenceSilence * 2 / 600) ≤
            s.emptyResultCount + 1
        · obtain ⟨hc1, hc2⟩ := max_le_iff.mp hcnt
          simp [processChunk, hnear, hnosil, htext, hact, hcnt, hc1, hc2]
        · have hcnt2 := hcnt
          rw [max_le_iff, not_and_or] at hcnt2
          rcases hcnt2 with hc | hc <;>
            simp [processChunk, hnear, hnosil, htext, hact, hcnt, hc]
      · have hact2 : s.sentenceActive = false := by
          cases h : s.sentenceActive
          · rfl
          · exact absurd h hact
        rw [if_neg (by rw [hact2]; exact Bool.false_ne_true)] at hnear
        simp [processChunk, hnear, hnosil, htext, hact2]
    · rw [if_pos hact] at hnear
      by_cases hcnt : max 3 (p.maxSentenceSilence * 2 / 600) ≤
          s.emptyResultCount + 1
      · obtain ⟨hc1, hc2⟩ := max_le_iff.mp hcnt
        simp [processChunk, hnear, hnosil, hact, hcnt, hc1, hc2]
      · have hcnt2 := hcnt
        rw [max_le_iff, not_and_or] at hcnt2
        rcases hcnt2 with hc | hc <;>
          simp [processChunk, hnear, hnosil, hact, hcnt, hc]

/-- Witness for `C6_silence_endpoint`: a tiny chunk with the filter
disabled and a nonempty model answer resets the counter. -/
theorem C6_silence_endpoint_witness :
    (processChunk ⟨1 / 100, false⟩ (constOracle "好" "好") default initASR
      [1 / 2]).1.emptyResultCount = 0 :=
  (C6_silence_endpoint ⟨1 / 100, false⟩ (constOracle "好" "好") default
    initASR [1 / 2] (by decide)).1 (by decide) (by decide)

/-- C7: with the nearfield filter enabled the gate uses the base
threshold when no sentence is active and 3/5 of it when one is active;
a below-threshold chunk with no active sentence is dropped — no model
call, no message emitted, only the audio-time counter advances by the
chunk duration — and a below-threshold chunk during an active sentence
is treated as an empty result for endpoint counting. -/
theorem C7_nearfield_gate (S : ASRSettings) (O : ASROracle) (p : ASRParams)
    (s : ASRSession) (chunk : List ℚ)
    (hen : S.enableNearfield = true)
    (hfar : is_nearfield_voice chunk
      (if s.sentenceActive = true then S.nearfieldThreshold * (3 / 5)
        else S.nearfieldThreshold) S.enableNearfield = false) :
    (s.sentenceActive = false →
      processChunk S O p s chunk =
        ({ s with audioTime := s.audioTime +
            chunkDurationMs chunk.length p.sampleRate }, [])) ∧
    (s.sentenceActive = true →
      (processChunk S O p s chunk).1.audioTime =
        s.audioTime + chunkDurationMs chunk.length p.sampleRate ∧
      ((∃ i t txt b, ASRMsg.sentenceEnd i t txt b ∈
          (processChunk S O p s chunk).2) ↔
        max 3 (p.maxSentenceSilence * 2 / 600) ≤ s.emptyResultCount + 1) ∧
      (¬ max 3 (p.maxSentenceSilence * 2 / 600) ≤ s.emptyResultCount + 1 →
        (processChunk S O p s chunk).1.emptyResultCount =
          s.emptyResultCount + 1 ∧
        (processChunk S O p s chunk).1.modelCalls = s.modelCalls ∧
        (processChunk S O p s chunk).2 = [])) := by
  refine ⟨?_, ?_⟩
  · intro hact2
    rw [if_neg (by rw [hact2]; exact Bool.false_ne_true)] at hfar
    simp [processChunk, hfar, hact2]
  · intro hact
    rw [if_pos hact] at hfar
    by_cases hcnt : max 3 (p.maxSentenceSilence * 2 / 600) ≤
        s.emptyResultCount + 1
    · obtain ⟨hc1, hc2⟩ := max_le_iff.mp hcnt
      simp [processChunk, hfar, hact, hcnt, hc1, hc2]
    · have hcnt2 := hcnt
      rw [max_le_iff, not_and_or] at hcnt2
      rcases hcnt2 with hc | hc <;>
        simp [processChunk, hfar, hact, hcnt, hc]

/-- Witness for `C7_nearfield_gate`: a silent chunk before any sentence
is dropped, advancing only the audio clock. -/
theorem C7_nearfield_gate_witness :
    processChunk ⟨1 / 100, true⟩ (constOracle "好" "好") default initASR
        [0] =
      ({ initASR with audioTime := initASR.audioTime +
          chunkDurationMs [(0 : ℚ)].length (default : ASRParams).sampleRate },
        []) :=
  (C7_nearfield_gate ⟨1 / 100, true⟩ (constOracle "好" "好") default initASR
    [0] rfl (by simp [is_nearfield_voice, meanSquare, initASR])).1 rfl

/-- Indices of the SentenceBegin messages of a trace, in order. -/
def beginIndices (ms : List ASRMsg) : List Nat :=
  ms.filterMap (fun m => match m with
    | ASRMsg.sentenceBegin i _ => some i
    | _ => none)

/-- Indices of the SentenceEnd messages of a trace, in order. -/
def endIndices (ms : List ASRMsg) : List Nat :=
  ms.filterMap (fun m => match m with
    | ASRMsg.sentenceEnd i _ _ _ => some i
    | _ => none)

/-- Every SentenceEnd of the trace is preceded by a SentenceBegin
carrying the same index. -/
def EndsAfterBegins (tr : List ASRMsg) : Prop :=
  ∀ t1 i t res b t2, tr = t1 ++ ASRMsg.sentenceEnd i t res b :: t2 →
    i ∈ beginIndices t1

theorem beginIndices_append (l1 l2 : List ASRMsg) :
    beginIndices (l1 ++ l2) = beginIndices l1 ++ beginIndices l2 :=
  List.filterMap_append l1 l2 _

theorem endIndices_append (l1 l2 : List ASRMsg) :
    endIndices (l1 ++ l2) = endIndices l1 ++ endIndices l2 :=
  List.filterMap_append l1 l2 _

theorem no_end_of_endIndices_nil {ms : List ASRMsg}
    (h : endIndices ms = []) :
    ∀ t1 i t res b t2, ms = t1 ++ ASRMsg.sentenceEnd i t res b :: t2 → False := by
  intro t1 i t res b t2 heq
  rw [heq, endIndices_append] at h
  have hcons : endIndices (ASRMsg.sentenceEnd i t res b :: t2) =
      i :: endIndices t2 := rfl
  rw [hcons] at h
  exact absurd (List.append_eq_nil.mp h).2 (List.cons_ne_nil _ _)

theorem end_index_of_endIndices_singleton {ms : List ASRMsg} {i0 : Nat}
    (h : endIndices ms = [i0]) :
    ∀ t1 i t res b t2, ms = t1 ++ ASRMsg.sentenceEnd i t res b :: t2 → i = i0 := by
  intro t1 i t res b t2 heq
  rw [heq, endIndices_append] at h
  have hcons : endIndices (ASRMsg.sentenceEnd i t res b :: t2) =
      i :: endIndices t2 := rfl
  rw [hcons] at h
  cases he : endIndices t1 with
  | nil =>
    rw [he, List.nil_append] at h
    exact ((List.cons.injEq _ _ _ _).mp h).1
  | cons x xs =>
    rw [he] at h
    have hlen := congrArg List.length h
    rw [List.length_append] at hlen
    simp only [List.length_cons, List.length_nil] at hlen
    omega

theorem endsAfterBegins_append {tr ms : List ASRMsg}
    (h1 : EndsAfterBegins tr)
    (h2 : ∀ t1 i t res b t2, ms = t1 ++ ASRMsg.sentenceEnd i t res b :: t2 →
      i ∈ beginIndices tr) :
    EndsAfterBegins (tr ++ ms) := by
  intro t1 i t res b t2 heq
  rcases List.append_eq_append_iff.mp heq with ⟨l, hl1, hl2⟩ | ⟨l, hl1, hl2⟩
  · subst hl1
    rw [beginIndices_append]
    exact List.mem_append_left _ (h2 l i t res b t2 hl2)
  · cases l with
    | nil =>
      rw [List.append_nil] at hl1
      subst hl1
      rw [List.nil_append] at hl2
      exact h2 [] i t res b t2 hl2.symm
    | cons hd tl =>
      rw [List.cons_append] at hl2
      injection hl2 with hhd htl
      rw [← hhd] at hl1
      exact h1 t1 i t res b tl hl1

/-- Per-chunk step facts: the connection state and stored parameters are
untouched, and the step either emits no sentence boundary (indices and
activity unchanged), or activates a sentence (one SentenceBegin with
index `sentenceIndex + 1`), or ends the active sentence (one
SentenceEnd with index `sentenceIndex + 1`, incrementing the index and
deactivating). -/
theorem processChunk_facts (S : ASRSettings) (O : ASROracle) (p : ASRParams)
    (s : ASRSession) (chunk : List ℚ) :
    (processChunk S O p s chunk).1.st = s.st ∧
    (processChunk S O p s chunk).1.params = s.params ∧
    ((beginIndices (processChunk S O p s chunk).2 = [] ∧
      endIndices (processChunk S O p s chunk).2 = [] ∧
      (processChunk S O p s chunk).1.sentenceIndex = s.sentenceIndex ∧
      (processChunk S O p s chunk).1.sentenceActive = s.sentenceActive) ∨
    (s.sentenceActive = false ∧
      beginIndices (processChunk S O p s chunk).2 = [s.sentenceIndex + 1] ∧
      endIndices (processChunk S O p s chunk).2 = [] ∧
      (processChunk S O p s chunk).1.sentenceIndex = s.sentenceIndex ∧
      (processChunk S O p s chunk).1.sentenceActive = true) ∨
    (s.sentenceActive = true ∧
      beginIndices (processChunk S O p s chunk).2 = [] ∧
      endIndices (processChunk S O p s chunk).2 = [s.sentenceIndex + 1] ∧
      (processChunk S O p s chunk).1.sentenceIndex = s.sentenceIndex + 1 ∧
      (processChunk S O p s chunk).1.sentenceActive = false)) := by
  by_cases hact : s.sentenceActive = true
  · by_cases hnear : is_nearfield_voice chunk
        (if s.sentenceActive = true then S.nearfieldThreshold * (3 / 5)
          else S.nearfieldThreshold) S.enableNearfield = true
    · rw [if_pos hact] at hnear
      simp [processChunk, hnear, hact]
      split_ifs <;> simp [beginIndices, endIndices, hact]
    · have hnear2 : is_nearfield_voice chunk
          (S.nearfieldThreshold * (3 / 5)) S.enableNearfield = false := by
        rw [if_pos hact] at hnear
        cases hv : is_nearfield_voice chunk
            (S.nearfieldThreshold * (3 / 5)) S.enableNearfield
        · rfl
        · exact absurd hv hnear
      simp [processChunk, hnear2, hact]
      split_ifs <;> simp [beginIndices, endIndices, hact]
  · have hact2 : s.sentenceActive = false := by
      cases hv : s.sentenceActive
      · rfl
      · exact absurd hv hact
    by_cases hnear : is_nearfield_voice chunk
        (if s.sentenceActive = true then S.nearfieldThreshold * (3 / 5)
          else S.nearfieldThreshold) S.enableNearfield = true
    · rw [if_neg (by rw [hact2]; exact Bool.false_ne_true)] at hnear
      simp [processChunk, hnear, hact2]
      split_ifs <;> simp [beginIndices, endIndices, hact2]
    · have hnear2 : is_nearfield_voice chunk
          S.nearfieldThreshold S.enableNearfield = false := by
        rw [if_neg (by rw [hact2]; exact Bool.false_ne_true)] at hnear
        cases hv : is_nearfield_voice chunk
            S.nearfieldThreshold S.enableNearfield
        · rfl
        · exact absurd hv hnear
      simp [processChunk, hnear2, hact2, beginIndices, endIndices]

/-- The sentence-boundary invariant of an ASR session trace: the
emitted SentenceEnd indices are exactly 1..sentenceIndex in order,
every end is preceded by a begin with the same index, a Ready session
has not begun any sentence, and (until completion) the emitted
SentenceBegin indices are exactly 1..sentenceIndex plus one more if a
sentence is active. -/
def ASRInv (s : ASRSession) (tr : List ASRMsg) : Prop :=
  endIndices tr = List.range' 1 s.sentenceIndex ∧
  EndsAfterBegins tr ∧
  (s.st = ASRConnState.ready → s.sentenceIndex = 0 ∧ s.sentenceActive = false) ∧
  (s.st = ASRConnState.completed ∨
    beginIndices tr = List.range' 1
      (s.sentenceIndex + (if s.sentenceActive = true then 1 else 0)))

theorem ASRInv_step (s s2 : ASRSession) (ms tr : List ASRMsg)
    (hinv : ASRInv s tr) (hst : s.st = ASRConnState.started)
    (hst2 : s2.st = ASRConnState.started ∨ s2.st = ASRConnState.completed)
    (hshape :
      (beginIndices ms = [] ∧ endIndices ms = [] ∧
        s2.sentenceIndex = s.sentenceIndex ∧
        s2.sentenceActive = s.sentenceActive) ∨
      (s.sentenceActive = false ∧ beginIndices ms = [s.sentenceIndex + 1] ∧
        endIndices ms = [] ∧ s2.sentenceIndex = s.sentenceIndex ∧
        s2.sentenceActive = true) ∨
      (s.sentenceActive = true ∧ beginIndices ms = [] ∧
        endIndices ms = [s.sentenceIndex + 1] ∧
        s2.sentenceIndex = s.sentenceIndex + 1 ∧
        (s2.sentenceActive = false ∨ s2.st = ASRConnState.completed))) :
    ASRInv s2 (tr ++ ms) := by
  obtain ⟨hend, hEAB, hready, hbeg⟩ := hinv
  have hbeg' : beginIndices tr = List.range' 1
      (s.sentenceIndex + (if s.sentenceActive = true then 1 else 0)) := by
    rcases hbeg with h | h
    · rw [hst] at h
      exact absurd h (by decide)
    · exact h
  have hready2 : s2.st = ASRConnState.ready →
      s2.sentenceIndex = 0 ∧ s2.sentenceActive = false := by
    intro h
    rcases hst2 with h2 | h2 <;> rw [h2] at h <;> exact absurd h (by decide)
  rcases hshape with ⟨hb, he, hi, ha⟩ | ⟨hsa, hb, he, hi, ha⟩ | ⟨hsa, hb, he, hi, ha⟩
  · refine ⟨?_, ?_, hready2, ?_⟩
    · rw [endIndices_append, he, List.append_nil, hend, hi]
    · exact endsAfterBegins_append hEAB (fun t1 i t res b t2 hms =>
        (no_end_of_endIndices_nil he t1 i t res b t2 hms).elim)
    · right
      rw [beginIndices_append, hb, List.append_nil, hbeg', hi, ha]
  · refine ⟨?_, ?_, hready2, ?_⟩
    · rw [endIndices_append, he, List.append_nil, hend, hi]
    · exact endsAfterBegins_append hEAB (fun t1 i t res b t2 hms =>
        (no_end_of_endIndices_nil he t1 i t res b t2 hms).elim)
    · right
      rw [beginIndices_append, hb, hbeg', hsa, hi, ha]
      simp [List.range'_concat, Nat.add_comm]
  · refine ⟨?_, ?_, hready2, ?_⟩
    · rw [endIndices_append, he, hend, hi]
      simp [List.range'_concat, Nat.add_comm]
    · apply endsAfterBegins_append hEAB
      intro t1 i t res b t2 hms
      have hi0 := end_index_of_endIndices_singleton he t1 i t res b t2 hms
      rw [hi0, hbeg', hsa]
      simp [List.mem_range'_1]
    · rcases ha with haf | hacomp
      · right
        rw [beginIndices_append, hb, List.append_nil, hbeg', hsa, hi, haf]
        simp
      · left
        exact hacomp

theorem ASRInv_congr {s s2 : ASRSession} {tr : List ASRMsg}
    (h1 : s2.st = s.st) (h2 : s2.sentenceIndex = s.sentenceIndex)
    (h3 : s2.sentenceActive = s.sentenceActive)
    (hinv : ASRInv s tr) : ASRInv s2 tr := by
  unfold ASRInv at *
  rw [h1, h2, h3]
  exact hinv

theorem ASRInv_append_boring {s : ASRSession} {tr ms : List ASRMsg}
    (hinv : ASRInv s tr) (hb : beginIndices ms = [])
    (he : endIndices ms = []) : ASRInv s (tr ++ ms) := by
  obtain ⟨hend, hEAB, hready, hbeg⟩ := hinv
  refine ⟨?_, ?_, hready, ?_⟩
  · rw [endIndices_append, he, List.append_nil, hend]
  · exact endsAfterBegins_append hEAB (fun t1 i t res b t2 hms =>
      (no_end_of_endIndices_nil he t1 i t res b t2 hms).elim)
  · rcases hbeg with h | h
    · left
      exact h
    · right
      rw [beginIndices_append, hb, List.append_nil, h]

theorem processFold_inv (S : ASRSettings) (O : ASROracle) (p : ASRParams)
    (chunks : List (List ℚ)) :
    ∀ (s : ASRSession) (tr : List ASRMsg), ASRInv s tr →
    s.st = ASRConnState.started →
    ((chunks.foldl (fun a c =>
        ((processChunk S O p a.1 c).1, a.2 ++ (processChunk S O p a.1 c).2))
        (s, [])).1.st = ASRConnState.started) ∧
    ASRInv ((chunks.foldl (fun a c =>
        ((processChunk S O p a.1 c).1, a.2 ++ (processChunk S O p a.1 c).2))
        (s, [])).1)
      (tr ++ ((chunks.foldl (fun a c =>
        ((processChunk S O p a.1 c).1, a.2 ++ (processChunk S O p a.1 c).2))
        (s, [])).2)) := by
  induction chunks with
  | nil =>
    intro s tr hinv hst
    exact ⟨hst, by simpa using hinv⟩
  | cons c cs ih =>
    intro s tr hinv hst
    have hfacts := processChunk_facts S O p s c
    have hst1 : (processChunk S O p s c).1.st = ASRConnState.started := by
      rw [hfacts.1, hst]
    have hshape : (beginIndices (processChunk S O p s c).2 = [] ∧
        endIndices (processChunk S O p s c).2 = [] ∧
        (processChunk S O p s c).1.sentenceIndex = s.sentenceIndex ∧
        (processChunk S O p s c).1.sentenceActive = s.sentenceActive) ∨
      (s.sentenceActive = false ∧
        beginIndices (processChunk S O p s c).2 = [s.sentenceIndex + 1] ∧
        endIndices (processChunk S O p s c).2 = [] ∧
        (processChunk S O p s c).1.sentenceIndex = s.sentenceIndex ∧
        (processChunk S O p s c).1.sentenceActive = true) ∨
      (s.sentenceActive = true ∧
        beginIndices (processChunk S O p s c).2 = [] ∧
        endIndices (processChunk S O p s c).2 = [s.sentenceIndex + 1] ∧
        (processChunk S O p s c).1.sentenceIndex = s.sentenceIndex + 1 ∧
        ((processChunk S O p s c).1.sentenceActive = false ∨
          (processChunk S O p s c).1.st = ASRConnState.completed)) := by
      rcases hfacts.2.2 with h | h | ⟨h1, h2, h3, h4, h5⟩
      · exact Or.inl h
      · exact Or.inr (Or.inl h)
      · exact Or.inr (Or.inr ⟨h1, h2, h3, h4, Or.inl h5⟩)
    have hinv1 : ASRInv (processChunk S O p s c).1
        (tr ++ (processChunk S O p s c).2) :=
      ASRInv_step s _ _ tr ⟨hinv.1, hinv.2.1, hinv.2.2.1, hinv.2.2.2⟩ hst
        (Or.inl hst1) hshape
    have hrec := ih (processChunk S O p s c).1
      (tr ++ (processChunk S O p s c).2) hinv1 hst1
    constructor
    · rw [List.foldl_cons]
      simp only [List.nil_append]
      rw [processFold_shift]
      exact hrec.1
    · rw [List.foldl_cons]
      simp only [List.nil_append]
      rw [processFold_shift, ← List.append_assoc]
      exact hrec.2

theorem binaryFrame_inv (S : ASRSettings) (O : ASROracle) (p : ASRParams)
    (s : ASRSession) (incoming : List ℚ) (tr : List ASRMsg)
    (hinv : ASRInv s tr) (hst : s.st = ASRConnState.started) :
    ((binaryFrame S O p s incoming).1.st = ASRConnState.started) ∧
    ASRInv (binaryFrame S O p s incoming).1
      (tr ++ (binaryFrame S O p s incoming).2) := by
  cases hsel : selectChunkSize (s.audioBuffer ++ incoming).length with
  | none =>
    simp only [binaryFrame, hsel]
    exact ⟨hst, by rw [List.append_nil]; exact ASRInv_congr rfl rfl rfl hinv⟩
  | some size =>
    have h0 : 0 < size := by
      unfold selectChunkSize at hsel
      split_ifs at hsel with h1 h2 <;>
        · have hv := (Option.some.inj hsel).symm
          omega
    simp only [binaryFrame, hsel, chunkLoop_eq S O p size h0]
    have hinv0 : ASRInv { s with audioBuffer := s.audioBuffer ++ incoming } tr :=
      ASRInv_congr rfl rfl rfl hinv
    have hres := processFold_inv S O p
      (splitChunks size (s.audioBuffer ++ incoming))
      { s with audioBuffer := s.audioBuffer ++ incoming } tr hinv0 hst
    exact ⟨hres.1, ASRInv_congr rfl rfl rfl hres.2⟩

theorem asrStep_inv (S : ASRSettings) (O : ASROracle) (s : ASRSession)
    (e : ASREvent) (tr : List ASRMsg) (hinv : ASRInv s tr)
    (hst : s.st = ASRConnState.ready ∨ s.st = ASRConnState.started) :
    ASRInv (asrStep S O s e).1 (tr ++ (asrStep S O s e).2) := by
  cases e with
  | badNamespace =>
    exact ASRInv_append_boring hinv rfl rfl
  | badName =>
    exact ASRInv_append_boring hinv rfl rfl
  | startMsg op =>
    by_cases hready : s.st = ASRConnState.ready
    · cases op with
      | none =>
        simp only [asrStep]
        rw [if_pos hready]
        exact ASRInv_append_boring hinv rfl rfl
      | some p =>
        simp only [asrStep]
        rw [if_pos hready]
        obtain ⟨hend, hEAB, hready2, hbeg⟩ := hinv
        obtain ⟨hidx0, hact0⟩ := hready2 hready
        have hbeg' : beginIndices tr = [] := by
          rcases hbeg with h | h
          · rw [hready] at h
            exact absurd h (by decide)
          · rw [hidx0, hact0] at h
            simpa using h
        have hend' : endIndices tr = [] := by
          rw [hidx0] at hend
          simpa using hend
        refine ⟨?_, ?_, ?_, ?_⟩
        · rw [endIndices_append, hend']
          rfl
        · exact endsAfterBegins_append hEAB (fun t1 i t res b t2 hms =>
            (@no_end_of_endIndices_nil [ASRMsg.transcriptionStarted] rfl
              t1 i t res b t2 hms).elim)
        · intro h
          exact ASRConnState.noConfusion h
        · right
          rw [beginIndices_append, hbeg']
          rfl
    · simp only [asrStep]
      rw [if_neg hready]
      exact ASRInv_append_boring hinv rfl rfl
  | stopMsg tm =>
    by_cases hstarted : s.st = ASRConnState.started
    · cases tm with
      | false =>
        simp only [asrStep]
        rw [if_pos hstarted, if_pos (by simp)]
        exact ASRInv_append_boring hinv rfl rfl
      | true =>
        simp only [asrStep]
        rw [if_pos hstarted, if_neg (by simp)]
        by_cases hact : s.sentenceActive = true ∧ s.sentenceTextsRaw ≠ []
        · rw [if_pos hact]
          refine ASRInv_step s _ _ tr hinv hstarted (Or.inr rfl) ?_
          exact Or.inr (Or.inr ⟨hact.1, rfl, rfl, rfl, Or.inr rfl⟩)
        · rw [if_neg hact]
          refine ASRInv_step s _ _ tr hinv hstarted (Or.inr rfl) ?_
          exact Or.inl ⟨rfl, rfl, rfl, rfl⟩
    · simp only [asrStep]
      rw [if_neg hstarted]
      exact ASRInv_append_boring hinv rfl rfl
  | binary samples =>
    by_cases hstarted : s.st = ASRConnState.started
    · simp only [asrStep]
      rw [if_pos hstarted]
      cases hpar : s.params with
      | none =>
        exact ASRInv_append_boring hinv rfl rfl
      | some p =>
        exact (binaryFrame_inv S O p s samples tr hinv hstarted).2
    · simp only [asrStep]
      rw [if_neg hstarted]
      exact ASRInv_append_boring hinv rfl rfl

theorem asrRun_inv (S : ASRSettings) (O : ASROracle) (evs : List ASREvent) :
    ∀ (s : ASRSession) (tr : List ASRMsg), ASRInv s tr →
    ASRInv (asrRun S O s evs).1 (tr ++ (asrRun S O s evs).2) := by
  induction evs with
  | nil =>
    intro s tr hinv
    simpa [asrRun] using hinv
  | cons e es ih =>
    intro s tr hinv
    by_cases hc : s.st = ASRConnState.completed
    · simp only [asrRun]
      rw [if_pos hc]
      simpa using hinv
    · have hst : s.st = ASRConnState.ready ∨ s.st = ASRConnState.started := by
        cases h : s.st
        · exact Or.inl rfl
        · exact Or.inr rfl
        · exact absurd h hc
      have hstep := asrStep_inv S O s e tr hinv hst
      have hrec := ih (asrStep S O s e).1 (tr ++ (asrStep S O s e).2) hstep
      simp only [asrRun]
      rw [if_neg hc]
      simpa [List.append_assoc] using hrec

/-- C5: in every ASR session run that reaches Completed, the emitted
SentenceEnd indices form exactly the sequence 1, 2, 3, ... (strictly
increasing from 1 with step 1), and every SentenceEnd is preceded in
the trace by a SentenceBegin carrying the same index. -/
theorem C5_sentence_indices (S : ASRSettings) (O : ASROracle)
    (evs : List ASREvent)
    (hcomp : (asrRun S O initASR evs).1.st = ASRConnState.completed) :
    endIndices (asrRun S O initASR evs).2 =
      List.range' 1 (endIndices (asrRun S O initASR evs).2).length ∧
    (∀ t1 i t res b t2, (asrRun S O initASR evs).2 =
      t1 ++ ASRMsg.sentenceEnd i t res b :: t2 → i ∈ beginIndices t1) := by
  have hinv0 : ASRInv initASR [] := by
    refine ⟨rfl, ?_, fun _ => ⟨rfl, rfl⟩, Or.inr rfl⟩
    intro t1 i t res b t2 h
    exact absurd (List.append_eq_nil.mp h.symm).2 (List.cons_ne_nil _ _)
  have h := asrRun_inv S O evs initASR [] hinv0
  rw [List.nil_append] at h
  obtain ⟨hend, hEAB, -, -⟩ := h
  refine ⟨?_, hEAB⟩
  rw [hend, List.length_range']

/-- Witness for `C5_sentence_indices`: a start-stop session completes
with an empty (vacuously ordered) sentence trace. -/
theorem C5_sentence_indices_witness :
    (asrRun ⟨1 / 100, false⟩ (constOracle "" "") initASR
        [ASREvent.startMsg (some default), ASREvent.stopMsg true]).1.st =
      ASRConnState.completed ∧
    endIndices (asrRun ⟨1 / 100, false⟩ (constOracle "" "") initASR
        [ASREvent.startMsg (some default), ASREvent.stopMsg true]).2 =
      List.range' 1 (endIndices (asrRun ⟨1 / 100, false⟩ (constOracle "" "")
        initASR [ASREvent.startMsg (some default),
          ASREvent.stopMsg true]).2).length :=
  ⟨rfl, (C5_sentence_indices ⟨1 / 100, false⟩ (constOracle "" "")
    [ASREvent.startMsg (some default), ASREvent.stopMsg true] rfl).1⟩

end FunSpeech
